import Mathlib

/-!
Shallow embedding of `src/user/build.py`: the address allocator, the layout
template mutator (string substitution over the linker script's lines), and the
build orchestrator (the main loop).  Python integers are unbounded, so machine
arithmetic is modelled with `Nat`; the external `os.system` call is modelled by
an oracle `String → Int` giving the exit status of each invoked command line.
-/

namespace BuildPy

/-- Base load address (`build.py` line 4). -/
def base_address : Nat := 0x80400000

/-- Address spacing between consecutive applications (`build.py` line 5). -/
def step : Nat := 0x20000

/-- Path of the shared linker script (`build.py` line 7); data only, the model
keeps the script's contents abstract as a list of lines. -/
def linker : String := "src/linker.ld"

/-- Address assigned to ordinal id `k`, computed inline at `build.py` lines
29 and 35 as `base_address + step * app_id`. -/
def address (appId : Nat) : Nat := base_address + step * appId

/-- Python `hex(n)` for a nonnegative int: `0x`-prefixed lowercase hexadecimal
digits with no padding.  `Nat.toDigits 16` produces exactly the lowercase
digit characters. -/
def pyHex (n : Nat) : String := "0x" ++ String.mk (Nat.toDigits 16 n)

/-- Index of the first occurrence of `c` in a character list, if any; the
recursive core of Python `str.find`. -/
def pyFindAux (c : Char) : List Char → Option Nat
  | [] => none
  | a :: rest => if a = c then some 0 else (pyFindAux c rest).map (· + 1)

/-- Python `s.find(c)`: index of the first occurrence of `c`, or `-1`. -/
def pyFind (s : String) (c : Char) : Int :=
  match pyFindAux c s.toList with
  | some i => (i : Int)
  | none => -1

/-- Python slice `s[:i]`: a nonnegative bound keeps the first `i` characters; a
negative bound counts from the end, clamped at zero. -/
def pySliceTo (s : String) (i : Int) : String :=
  if i < 0 then String.mk (s.toList.take (s.toList.length - (-i).toNat))
  else String.mk (s.toList.take i.toNat)

/-- The name stripping of `build.py` line 17: `app = app[:app.find('.')]`. -/
def stripName (s : String) : String := pySliceTo s (pyFind s '.')

/-- Left-to-right non-overlapping replacement scan of Python `str.replace` on
character lists; the fuel bounds the scan length and is set by callers to the
length of the subject list (for a nonempty pattern the scan never needs more). -/
def pyReplaceAux (old new : List Char) : Nat → List Char → List Char
  | _, [] => []
  | 0, s => s
  | fuel + 1, c :: rest =>
    if old.isPrefixOf (c :: rest) then
      new ++ pyReplaceAux old new fuel (rest.drop (old.length - 1))
    else
      c :: pyReplaceAux old new fuel rest

/-- Python `s.replace(old, new)` for a nonempty `old` (the only use in
`build.py`: the pattern is the canonical hex literal). -/
def pyReplace (s old new : String) : String :=
  String.mk (pyReplaceAux old.toList new.toList s.toList.length s.toList)

/-- The per-line substitution of `build.py` line 29:
`line.replace(hex(base_address), hex(base_address + step * app_id))`. -/
def patchLine (appId : Nat) (line : String) : String :=
  pyReplace line (pyHex base_address) (pyHex (address appId))

/-- The command line passed to `os.system` at `build.py` line 34. -/
def buildCommand (app : String) : String :=
  "cargo build --bin " ++ app ++ " --release"

/-- The report line printed at `build.py` line 35. -/
def reportLine (app : String) (appId : Nat) : String :=
  "[build.py] application " ++ app ++ " start with address " ++ pyHex (address appId)

/-- Observable record of one iteration of the main loop (`build.py` lines
15-38): stripped name, ordinal id, linker-script content during the build
window (after the write-back of lines 31-32), exit status of the external
build, printed report line, and linker-script content after the restore of
lines 36-37. -/
structure AppTrace where
  name : String
  appId : Nat
  duringBuild : List String
  buildStatus : Int
  report : String
  afterRestore : List String
deriving DecidableEq

/-- One iteration of the loop body for directory entry `a`, starting from the
given template content and counter value. -/
def loopBody (exec : String → Int) (template : List String) (appId : Nat)
    (a : String) : AppTrace :=
  let app := stripName a
  let lines_before := template
  let lines := template.map (patchLine appId)
  { name := app
    appId := appId
    duringBuild := lines
    buildStatus := exec (buildCommand app)
    report := reportLine app appId
    afterRestore := lines_before }

/-- The `for` loop of `build.py` lines 15-38: processes the entries in order,
threading the template content and the counter `app_id`; yields the traces and
the final template content. -/
def runAux (exec : String → Int) :
    List String → Nat → List String → List AppTrace × List String
  | template, _, [] => ([], template)
  | template, appId, a :: rest =>
    let tr := loopBody exec template appId a
    let out := runAux exec tr.afterRestore (appId + 1) rest
    (tr :: out.1, out.2)

/-- Strict lexicographic comparison of character lists by code point, the way
Python compares strings. -/
def lexLt : List Char → List Char → Bool
  | [], [] => false
  | [], _ :: _ => true
  | _ :: _, [] => false
  | a :: as, b :: bs =>
    if a < b then true
    else if b < a then false
    else lexLt as bs

/-- Nonstrict string order used by the sort: `a ≤ b` iff not `b < a`. -/
def strLe (a b : String) : Prop := lexLt b.toList a.toList = false

instance : DecidableRel strLe := fun a b => by unfold strLe; infer_instance

/-- The `apps.sort()` of `build.py` line 12: sorts the directory entries by
code-point lexicographic order.  Realised as insertion sort; with respect to
this total order every sort of a list of strings yields the same list, so this
is extensionally Python's `list.sort`. -/
def pySort (l : List String) : List String := List.insertionSort strLe l

/-- The whole orchestration of `build.py`: the directory listing `rawApps` is
sorted, then the main loop runs starting from `app_id = 0`. -/
def run (exec : String → Int) (template : List String) (rawApps : List String) :
    List AppTrace × List String :=
  runAux exec template 0 (pySort rawApps)

/-- Whether `old` occurs as a contiguous segment of a character list (the
section 4.2 notion of the canonical literal occurring in a template line). -/
def occursIn (old : List Char) : List Char → Bool
  | [] => old.isEmpty
  | c :: rest => old.isPrefixOf (c :: rest) || occursIn old rest

/-- Following the spec's words (section 4.3): the portion of a name before its
first separator, with nothing stripped when no separator occurs.  Stated for
comparison against the code's `stripName`. -/
def identityBeforeSep (s : String) : String :=
  String.mk (s.toList.takeWhile (fun c => c != '.'))

/-- Characters Python hex digits are drawn from: decimal digits and lowercase
`a`-`f`. -/
def isLowerHexDigit (c : Char) : Bool := c.isDigit || ('a' ≤ c && c ≤ 'f')

/-- Fixed exit-status oracle used in concrete evaluations: every external
build succeeds. -/
def okExec : String → Int := fun _ => 0

/-- Fixed exit-status oracle used in concrete evaluations: every external
build fails. -/
def failExec : String → Int := fun _ => 1

/-- Concrete two-line template holding the canonical literal, used in concrete
evaluations. -/
def sampleTemplate : List String :=
  ["BASE_ADDRESS = 0x80400000;\n", "SECTIONS\n"]

/-- Concrete template in which the canonical literal never occurs, used in
concrete evaluations of the silent no-op case. -/
def plainTemplate : List String :=
  ["BASE_ADDRESS = 0X80400000;\n", "SECTIONS\n"]

/-! Order facts about the comparison that drives the sort. -/

lemma lexLt_asymm : ∀ as bs : List Char, lexLt as bs = true → lexLt bs as = false := by
  intro as
  induction as with
  | nil =>
    intro bs h
    cases bs with
    | nil => simp [lexLt] at h
    | cons b bs => rfl
  | cons a as ih =>
    intro bs h
    cases bs with
    | nil => simp [lexLt] at h
    | cons b bs =>
      simp only [lexLt] at h ⊢
      by_cases hab : a < b
      · simp [lt_asymm hab, hab]
      · by_cases hba : b < a
        · simp [hab, hba] at h
        · simp only [hab, hba, if_false] at h
          simp [hab, hba, ih bs h]

lemma lexLt_false_antisymm : ∀ as bs : List Char,
    lexLt as bs = false → lexLt bs as = false → as = bs := by
  intro as
  induction as with
  | nil =>
    intro bs h1 h2
    cases bs with
    | nil => rfl
    | cons b bs => simp [lexLt] at h1
  | cons a as ih =>
    intro bs h1 h2
    cases bs with
    | nil => simp [lexLt] at h2
    | cons b bs =>
      simp only [lexLt] at h1 h2
      by_cases hab : a < b
      · simp [hab] at h1
      · by_cases hba : b < a
        · simp [hba, lt_asymm hba] at h2
        · have hc : a = b := le_antisymm (le_of_not_lt hba) (le_of_not_lt hab)
          subst hc
          simp only [lt_irrefl, if_false] at h1 h2
          rw [ih bs h1 h2]

lemma lexLt_false_trans : ∀ as bs cs : List Char,
    lexLt cs bs = false → lexLt bs as = false → lexLt cs as = false := by
  intro as
  induction as with
  | nil =>
    intro bs cs _ _
    cases cs with
    | nil => rfl
    | cons c cs => rfl
  | cons a as ih =>
    intro bs cs h1 h2
    cases bs with
    | nil => simp [lexLt] at h2
    | cons b bs =>
      cases cs with
      | nil => simp [lexLt] at h1
      | cons c cs =>
        simp only [lexLt] at h1 h2 ⊢
        by_cases hcb : c < b
        · simp [hcb] at h1
        · by_cases hba : b < a
          · simp [hba] at h2
          · have hac : ¬ c < a :=
              not_lt.mpr (le_trans (le_of_not_lt hba) (le_of_not_lt hcb))
            by_cases hac2 : a < c
            · simp [hac, hac2]
            · have hca : a = c :=
                le_antisymm (le_trans (le_of_not_lt hba) (le_of_not_lt hcb))
                  (le_of_not_lt hac2)
              have hb : a = b :=
                le_antisymm (le_of_not_lt hba)
                  (by rw [hca] at hac2 ⊢; exact le_of_not_lt hcb)
              subst hca
              rw [← hb] at h1 h2
              simp only [lt_irrefl, if_false] at h1 h2 ⊢
              exact ih bs cs h1 h2

instance : IsTotal String strLe := by
  constructor
  intro a b
  unfold strLe
  cases h : lexLt a.toList b.toList with
  | false => exact Or.inr rfl
  | true => exact Or.inl (lexLt_asymm _ _ h)

instance : IsTrans String strLe := by
  constructor
  intro a b c h1 h2
  exact lexLt_false_trans a.toList b.toList c.toList h2 h1

instance : IsAntisymm String strLe := by
  constructor
  intro a b h1 h2
  exact String.toList_inj.mp (lexLt_false_antisymm a.toList b.toList h2 h1)

lemma pySort_perm (l : List String) : List.Perm (pySort l) l :=
  List.perm_insertionSort _ l

lemma pySort_sorted (l : List String) : List.Sorted strLe (pySort l) :=
  List.sorted_insertionSort _ l

lemma pySort_eq_of_perm {l1 l2 : List String} (h : l1.Perm l2) :
    pySort l1 = pySort l2 :=
  List.eq_of_perm_of_sorted ((pySort_perm l1).trans (h.trans (pySort_perm l2).symm))
    (pySort_sorted l1) (pySort_sorted l2)

lemma pySort_length (l : List String) : (pySort l).length = l.length :=
  (pySort_perm l).length_eq

/-! Structure of the main loop: the final template, the number of traces, and
the shape of each trace. -/

lemma runAux_snd (exec : String → Int) :
    ∀ (apps : List String) (template : List String) (appId : Nat),
      (runAux exec template appId apps).2 = template := by
  intro apps
  induction apps with
  | nil => intro t i; rfl
  | cons a rest ih =>
    intro t i
    simpa [runAux, loopBody] using ih t (i + 1)

lemma runAux_length (exec : String → Int) :
    ∀ (apps : List String) (template : List String) (appId : Nat),
      (runAux exec template appId apps).1.length = apps.length := by
  intro apps
  induction apps with
  | nil => intro t i; rfl
  | cons a rest ih =>
    intro t i
    simpa [runAux, loopBody] using ih t (i + 1)

lemma runAux_getElem? (exec : String → Int) :
    ∀ (apps : List String) (template : List String) (appId k : Nat),
      ((runAux exec template appId apps).1)[k]? =
        apps[k]?.map (fun a => loopBody exec template (appId + k) a) := by
  intro apps
  induction apps with
  | nil => intro t i k; simp [runAux]
  | cons a rest ih =>
    intro t i k
    cases k with
    | zero => simp [runAux]
    | succ k =>
      have hrest : (loopBody exec t i a).afterRestore = t := rfl
      simp only [runAux, hrest, List.getElem?_cons_succ]
      rw [ih t (i + 1) k]
      have harith : i + 1 + k = i + (k + 1) := by omega
      rw [harith]

lemma run_getElem? (exec : String → Int) (template : List String)
    (rawApps : List String) (k : Nat) :
    ((run exec template rawApps).1)[k]? =
      (pySort rawApps)[k]?.map (fun a => loopBody exec template k a) := by
  have h := runAux_getElem? exec (pySort rawApps) template 0 k
  simpa [run] using h

lemma run_snd (exec : String → Int) (template : List String)
    (rawApps : List String) :
    (run exec template rawApps).2 = template :=
  runAux_snd exec (pySort rawApps) template 0

lemma run_length (exec : String → Int) (template : List String)
    (rawApps : List String) :
    (run exec template rawApps).1.length = rawApps.length := by
  rw [run, runAux_length exec (pySort rawApps) template 0, pySort_length]

lemma runAux_map_afterRestore (exec : String → Int) :
    ∀ (apps : List String) (template : List String) (appId : Nat),
      (runAux exec template appId apps).1.map AppTrace.afterRestore =
        List.replicate apps.length template := by
  intro apps
  induction apps with
  | nil => intro t i; rfl
  | cons a rest ih =>
    intro t i
    simp only [runAux, List.map_cons, List.length_cons, List.replicate_succ]
    have hres : (loopBody exec t i a).afterRestore = t := rfl
    rw [hres, ih t (i + 1)]

/-! Behaviour of the substitution when the pattern never occurs. -/

lemma stringMk_toList (s : String) : String.mk s.toList = s := rfl

lemma pyReplaceAux_no_occur (old new : List Char) :
    ∀ (fuel : Nat) (l : List Char), occursIn old l = false →
      pyReplaceAux old new fuel l = l := by
  intro fuel
  induction fuel with
  | zero => intro l _; cases l <;> rfl
  | succ fuel ih =>
    intro l h
    cases l with
    | nil => rfl
    | cons c rest =>
      simp only [occursIn, Bool.or_eq_false_iff] at h
      simp only [pyReplaceAux, h.1, Bool.false_eq_true, if_false]
      rw [ih rest h.2]

lemma pyReplace_no_occur (s old new : String)
    (h : occursIn old.toList s.toList = false) : pyReplace s old new = s := by
  unfold pyReplace
  rw [pyReplaceAux_no_occur _ _ _ _ h, stringMk_toList]

lemma patchLine_no_occur (appId : Nat) (line : String)
    (h : occursIn (pyHex base_address).toList line.toList = false) :
    patchLine appId line = line :=
  pyReplace_no_occur _ _ _ h

/-! Behaviour of the name stripping. -/

lemma pyFindAux_eq_none (c : Char) :
    ∀ l : List Char, c ∉ l → pyFindAux c l = none := by
  intro l
  induction l with
  | nil => intro _; rfl
  | cons a rest ih =>
    intro h
    have hac : a ≠ c := fun hc => h (hc ▸ List.mem_cons_self a rest)
    have hrest : c ∉ rest := fun hc => h (List.mem_cons_of_mem a hc)
    simp [pyFindAux, hac, ih hrest]

lemma pyFindAux_exists (c : Char) :
    ∀ l : List Char, c ∈ l → ∃ i, pyFindAux c l = some i := by
  intro l
  induction l with
  | nil => intro h; cases h
  | cons a rest ih =>
    intro h
    by_cases hac : a = c
    · exact ⟨0, by simp [pyFindAux, hac]⟩
    · have hrest : c ∈ rest := by
        cases h with
        | head => exact absurd rfl hac
        | tail _ h => exact h
      obtain ⟨j, hj⟩ := ih hrest
      exact ⟨j + 1, by simp [pyFindAux, hac, hj]⟩

lemma pyFindAux_take (c : Char) :
    ∀ (l : List Char) (i : Nat), pyFindAux c l = some i →
      l.take i = l.takeWhile (fun a => a != c) := by
  intro l
  induction l with
  | nil => intro i h; cases h
  | cons a rest ih =>
    intro i h
    by_cases hac : a = c
    · have h0 : i = 0 := by
        rw [pyFindAux, if_pos hac] at h
        exact (Option.some_inj.mp h).symm
      subst h0
      subst hac
      simp [List.takeWhile_cons]
    · cases hrest : pyFindAux c rest with
      | none =>
        rw [pyFindAux, if_neg hac, hrest] at h
        cases h
      | some j =>
        rw [pyFindAux, if_neg hac, hrest] at h
        simp only [Option.map_some'] at h
        have hij : i = j + 1 := (Option.some_inj.mp h).symm
        subst hij
        have hbe : (a != c) = true := bne_iff_ne.mpr hac
        simp only [List.take_succ_cons, List.takeWhile_cons, hbe, if_true]
        rw [ih j hrest]

lemma stripName_of_mem (s : String) (h : '.' ∈ s.toList) :
    stripName s = identityBeforeSep s := by
  obtain ⟨i, hi⟩ := pyFindAux_exists '.' s.toList h
  unfold stripName pyFind
  rw [hi]
  unfold pySliceTo identityBeforeSep
  have hnn : ¬ ((i : Int) < 0) := by omega
  rw [if_neg hnn]
  simp only [Int.toNat_ofNat]
  rw [pyFindAux_take '.' s.toList i hi]

lemma stripName_of_not_mem (s : String) (h : '.' ∉ s.toList) :
    stripName s = String.mk s.toList.dropLast := by
  unfold stripName pyFind
  rw [pyFindAux_eq_none '.' s.toList h]
  unfold pySliceTo
  have hneg : (-1 : Int) < 0 := by omega
  rw [if_pos hneg]
  have h1 : ((-(-1 : Int)).toNat) = 1 := by decide
  rw [h1, ← List.dropLast_eq_take]

/-! Shape of the hexadecimal rendering. -/

lemma digitChar_lower : ∀ d : Nat, d < 16 → isLowerHexDigit (Nat.digitChar d) = true := by
  decide

lemma toDigitsCore_lower :
    ∀ (fuel n : Nat) (ds : List Char), ds.all isLowerHexDigit = true →
      (Nat.toDigitsCore 16 fuel n ds).all isLowerHexDigit = true := by
  intro fuel
  induction fuel with
  | zero => intro n ds h; simpa [Nat.toDigitsCore] using h
  | succ fuel ih =>
    intro n ds h
    have hd : isLowerHexDigit (Nat.digitChar (n % 16)) = true :=
      digitChar_lower _ (Nat.mod_lt _ (by norm_num))
    simp only [Nat.toDigitsCore]
    by_cases hz : n / 16 = 0
    · simp [hz, List.all_cons, hd, h]
    · simp only [hz, if_false]
      exact ih (n / 16) _ (by simp [List.all_cons, hd, h])

lemma pyHex_toList (n : Nat) :
    (pyHex n).toList = '0' :: 'x' :: Nat.toDigits 16 n := rfl

lemma pyHex_take2 (n : Nat) : (pyHex n).toList.take 2 = ['0', 'x'] := by
  rw [pyHex_toList]
  rfl

lemma pyHex_digits_lower (n : Nat) :
    ((pyHex n).toList.drop 2).all isLowerHexDigit = true := by
  rw [pyHex_toList]
  simp only [List.drop_succ_cons, List.drop_zero]
  exact toDigitsCore_lower (n + 1) n [] rfl

lemma run_map_getElem? {α : Type} (exec : String → Int) (template : List String)
    (rawApps : List String) (k : Nat) (f : AppTrace → α) :
    ((run exec template rawApps).1.map f)[k]? =
      (pySort rawApps)[k]?.map (fun a => f (loopBody exec template k a)) := by
  rw [List.getElem?_map, run_getElem?, Option.map_map]
  rfl

example : pyHex base_address = "0x80400000" := by decide
example : stripName "alpha.x" = "alpha" := by decide
example : stripName "abc" = "ab" := by decide
example : pySort ["bravo.x", "alpha.x"] = ["alpha.x", "bravo.x"] := by decide
example : patchLine 1 "BASE_ADDRESS = 0x80400000;\n" = "BASE_ADDRESS = 0x80420000;\n" := by
  decide

/-! Claim theorems. -/

/-- C1: a full run of the orchestration leaves the layout template byte-for-byte
identical to its content before the run, for any application list (lengths zero
and one included); moreover after every single application's build step — for
every possible exit status of the external build, since the status oracle is
universally quantified — the template is restored to its pre-mutation content
before the next application is processed. -/
theorem template_roundtrip (exec : String → Int) (template : List String)
    (rawApps : List String) :
    (run exec template rawApps).2 = template ∧
    (run exec template rawApps).1.map AppTrace.afterRestore =
      List.replicate rawApps.length template := by
  refine ⟨run_snd exec template rawApps, ?_⟩
  rw [run, runAux_map_afterRestore, pySort_length]

/-- C2: with base_address = 0x80400000 and step = 0x20000, address k =
base_address + step * k, so for ordinal ids i < j < n the address gap is
step * (j - i), which is positive, addresses of distinct ids differ, and the n
addresses assigned to a run over n applications are pairwise distinct. -/
theorem address_arithmetic (n i j : Nat) (hij : i < j) (_hjn : j < n) :
    address j - address i = step * (j - i) ∧
    0 < step * (j - i) ∧
    address i ≠ address j ∧
    ((List.range n).map address).Nodup := by
  refine ⟨?_, ?_, ?_, ?_⟩
  · unfold address step base_address
    omega
  · unfold step
    omega
  · unfold address step base_address
    omega
  · refine List.Nodup.map ?_ (List.nodup_range n)
    intro a b hab
    unfold address step base_address at hab
    omega

theorem address_arithmetic_w :
    address 1 - address 0 = step * (1 - 0) ∧
    0 < step * (1 - 0) ∧
    address 0 ≠ address 1 ∧
    ((List.range 2).map address).Nodup :=
  address_arithmetic 2 0 1 (by decide) (by decide)

/-- C5: a failing external build changes nothing in the orchestration: for any
two exit-status oracles the report lines, the restored template contents and
the final template agree; the run never halts early (one trace per
application), and every report line announces its trace's own identity and
assigned address. -/
theorem build_failure_ignored (ex1 ex2 : String → Int) (template : List String)
    (rawApps : List String) :
    (run ex1 template rawApps).1.map AppTrace.report =
      (run ex2 template rawApps).1.map AppTrace.report ∧
    (run ex1 template rawApps).1.map AppTrace.afterRestore =
      (run ex2 template rawApps).1.map AppTrace.afterRestore ∧
    (run ex1 template rawApps).2 = (run ex2 template rawApps).2 ∧
    (run ex1 template rawApps).1.length = rawApps.length ∧
    (run ex1 template rawApps).1.map AppTrace.report =
      (run ex1 template rawApps).1.map (fun tr => reportLine tr.name tr.appId) := by
  refine ⟨?_, ?_, ?_, run_length ex1 template rawApps, ?_⟩
  · apply List.ext_getElem?
    intro k
    rw [run_map_getElem?, run_map_getElem?]
    rfl
  · apply List.ext_getElem?
    intro k
    rw [run_map_getElem?, run_map_getElem?]
    rfl
  · rw [run_snd, run_snd]
  · apply List.ext_getElem?
    intro k
    rw [run_map_getElem?, run_map_getElem?]
    rfl

/-- C7: the orchestration is deterministic in the multiset of discovered
names: over two input orderings of the same names it produces the very same
outcome — same ids, same reports, same traces, same final template. -/
theorem run_deterministic (exec : String → Int) (template : List String)
    (l1 l2 : List String) (h : List.Perm l1 l2) :
    run exec template l1 = run exec template l2 := by
  unfold run
  rw [pySort_eq_of_perm h]

theorem run_deterministic_w :
    run okExec sampleTemplate ["bravo.x", "alpha.x"] =
      run okExec sampleTemplate ["alpha.x", "bravo.x"] :=
  run_deterministic okExec sampleTemplate _ _ (by decide)

/-- C3: during the build window of the application at ordinal id k, the
template content equals the original content with, in every line, each literal
occurrence of the canonical literal hex(base_address) replaced by
hex(address k); the canonical literal renders as "0x80400000" and the
substituted rendering keeps the canonical convention — the 0x prefix followed
by lowercase hexadecimal digits only. -/
theorem build_window_content (exec : String → Int) (template : List String)
    (rawApps : List String) (k : Nat) (hk : k < rawApps.length) :
    ((run exec template rawApps).1.map AppTrace.duringBuild)[k]? =
      some (template.map
        (fun line => pyReplace line (pyHex base_address) (pyHex (address k)))) ∧
    pyHex base_address = "0x80400000" ∧
    (pyHex (address k)).toList.take 2 = ['0', 'x'] ∧
    ((pyHex (address k)).toList.drop 2).all isLowerHexDigit = true := by
  refine ⟨?_, by decide, pyHex_take2 _, pyHex_digits_lower _⟩
  rw [run_map_getElem?]
  have hk2 : k < (pySort rawApps).length := by rw [pySort_length]; exact hk
  rw [List.getElem?_eq_getElem hk2]
  rfl

theorem build_window_content_w :
    ((run okExec sampleTemplate ["alpha.x"]).1.map AppTrace.duringBuild)[0]? =
      some (sampleTemplate.map
        (fun line => pyReplace line (pyHex base_address) (pyHex (address 0)))) ∧
    pyHex base_address = "0x80400000" ∧
    (pyHex (address 0)).toList.take 2 = ['0', 'x'] ∧
    ((pyHex (address 0)).toList.drop 2).all isLowerHexDigit = true :=
  build_window_content okExec sampleTemplate ["alpha.x"] 0 (by decide)

/-- C4 as stated fails: for the directory listing ["a.x", "a.y"] — two
distinct, already sorted names — the identity list the orchestrator iterates
over is ["a", "a"], which is not deduplicated (and the run's ids 0 and 1 are
positions in the sorted name list, not in a deduplicated identity list). -/
theorem identity_list_cex :
    (run okExec sampleTemplate ["a.x", "a.y"]).1.map AppTrace.name = ["a", "a"] ∧
    ¬ ((run okExec sampleTemplate ["a.x", "a.y"]).1.map AppTrace.name).Nodup := by
  decide

/-- C4 amended: the orchestrator iterates over the lexicographically sorted
list of source-unit names (a permutation of the discovered listing, whose
entries the filesystem keeps distinct); the k-th processed application has
ordinal id k and identity stripName of the k-th sorted name.  The derived
identity list itself need not be deduplicated or sorted by identity. -/
theorem ordinal_id_is_position (exec : String → Int) (template : List String)
    (rawApps : List String) (k : Nat) (a : String)
    (h : (pySort rawApps)[k]? = some a) :
    List.Sorted strLe (pySort rawApps) ∧
    List.Perm (pySort rawApps) rawApps ∧
    ((run exec template rawApps).1.map AppTrace.appId)[k]? = some k ∧
    ((run exec template rawApps).1.map AppTrace.name)[k]? = some (stripName a) := by
  refine ⟨pySort_sorted _, pySort_perm _, ?_, ?_⟩ <;>
    rw [run_map_getElem?, h] <;> rfl

theorem ordinal_id_is_position_w :
    List.Sorted strLe (pySort ["bravo.x", "alpha.x"]) ∧
    List.Perm (pySort ["bravo.x", "alpha.x"]) ["bravo.x", "alpha.x"] ∧
    ((run okExec sampleTemplate ["bravo.x", "alpha.x"]).1.map AppTrace.appId)[1]? =
      some 1 ∧
    ((run okExec sampleTemplate ["bravo.x", "alpha.x"]).1.map AppTrace.name)[1]? =
      some (stripName "bravo.x") :=
  ordinal_id_is_position okExec sampleTemplate ["bravo.x", "alpha.x"] 1 "bravo.x"
    (by decide)

/-- C6 as stated fails on a name without a separator: build.py derives from
"abc" the identity "ab", not the portion before a first separator, which —
there being no separator, so nothing to strip at it — is "abc" itself. -/
theorem identity_strip_cex :
    stripName "abc" = "ab" ∧ identityBeforeSep "abc" = "abc" ∧
    stripName "abc" ≠ identityBeforeSep "abc" := by decide

/-- C6 amended: for every discovered source-unit name that contains a
separator, the derived identity equals the portion of the name before its
first '.' — the extension is stripped at the first separator. -/
theorem identity_strips_extension (s : String) (h : '.' ∈ s.toList) :
    stripName s = identityBeforeSep s :=
  stripName_of_mem s h

theorem identity_strips_extension_w :
    stripName "alpha.tail.x" = identityBeforeSep "alpha.tail.x" ∧
    stripName "alpha.tail.x" = "alpha" :=
  ⟨identity_strips_extension "alpha.tail.x" (by decide), by decide⟩

/-- C8 as stated fails on the report lines: build.py prefixes each report with
"[build.py] ", so the run over bravo.x and alpha.x does not emit the bare
lines the claim quotes. -/
theorem example_report_cex :
    (run okExec sampleTemplate ["bravo.x", "alpha.x"]).1.map AppTrace.report ≠
      ["application alpha start with address 0x80400000",
       "application bravo start with address 0x80420000"] := by decide

/-- C8 amended: for applications discovered as bravo.x, alpha.x (any template
content and any build statuses): the sorted names are alpha.x then bravo.x;
identities alpha and bravo get ids 0 and 1 and addresses 0x80400000 and
0x80420000; exactly two report lines are emitted, each of the form
"[build.py] application <identity> start with address <hex-address>", alpha's
first; and the template content is identical before and after the run. -/
theorem example_run (exec : String → Int) (template : List String) :
    pySort ["bravo.x", "alpha.x"] = ["alpha.x", "bravo.x"] ∧
    (pySort ["bravo.x", "alpha.x"]).map stripName = ["alpha", "bravo"] ∧
    (run exec template ["bravo.x", "alpha.x"]).1.map AppTrace.appId = [0, 1] ∧
    address 0 = 0x80400000 ∧ address 1 = 0x80420000 ∧
    (run exec template ["bravo.x", "alpha.x"]).1.map AppTrace.report =
      ["[build.py] application alpha start with address 0x80400000",
       "[build.py] application bravo start with address 0x80420000"] ∧
    (run exec template ["bravo.x", "alpha.x"]).2 = template := by
  have hs : pySort ["bravo.x", "alpha.x"] = ["alpha.x", "bravo.x"] := by decide
  refine ⟨hs, by decide, ?_, by decide, by decide, ?_, run_snd _ _ _⟩
  · rw [run, hs]
    rfl
  · rw [run, hs]
    show [reportLine (stripName "alpha.x") 0, reportLine (stripName "bravo.x") 1] = _
    decide

/-- C9: when the canonical literal occurs nowhere in the template (in
particular when it only occurs with other surface formatting), the
substitution is a silent no-op — the content during the build window is the
unchanged original — yet the run still invokes the external build for the
application and still emits its report line, signalling no failure. -/
theorem missing_literal_noop (exec : String → Int) (template : List String)
    (rawApps : List String) (k : Nat) (a : String)
    (h : (pySort rawApps)[k]? = some a)
    (habs : ∀ line ∈ template,
      occursIn (pyHex base_address).toList line.toList = false) :
    ((run exec template rawApps).1.map AppTrace.duringBuild)[k]? = some template ∧
    ((run exec template rawApps).1.map AppTrace.buildStatus)[k]? =
      some (exec (buildCommand (stripName a))) ∧
    ((run exec template rawApps).1.map AppTrace.report)[k]? =
      some (reportLine (stripName a) k) := by
  refine ⟨?_, ?_, ?_⟩ <;> rw [run_map_getElem?, h, Option.map_some']
  · show some (template.map (patchLine k)) = some template
    have hid : template.map (patchLine k) = template.map id :=
      List.map_congr_left (fun line hl => patchLine_no_occur k line (habs line hl))
    rw [hid, List.map_id]
  · rfl
  · rfl

theorem missing_literal_noop_w :
    ((run okExec plainTemplate ["a.x"]).1.map AppTrace.duringBuild)[0]? =
      some plainTemplate ∧
    ((run okExec plainTemplate ["a.x"]).1.map AppTrace.buildStatus)[0]? =
      some (okExec (buildCommand (stripName "a.x"))) ∧
    ((run okExec plainTemplate ["a.x"]).1.map AppTrace.report)[0]? =
      some (reportLine (stripName "a.x") 0) :=
  missing_literal_noop okExec plainTemplate ["a.x"] 0 "a.x" (by decide) (by decide)

/-- C10: a discovered name containing no '.' gets as identity the name with
its final character removed — str.find returns -1 and the slice keeps all but
the last character — and, for a nonempty name, not the full name. -/
theorem no_separator_drops_last (s : String) (h : '.' ∉ s.toList) :
    stripName s = String.mk s.toList.dropLast ∧ (s ≠ "" → stripName s ≠ s) := by
  refine ⟨stripName_of_not_mem s h, ?_⟩
  intro h2
  rw [stripName_of_not_mem s h]
  intro heq
  have hl : s.toList.dropLast = s.toList := congrArg String.toList heq
  have hlen : s.toList.length - 1 = s.toList.length := by
    rw [← List.length_dropLast, hl]
  have hnil : s.toList = [] := List.eq_nil_of_length_eq_zero (by omega)
  exact h2 (String.toList_inj.mp hnil)

theorem no_separator_drops_last_w :
    (stripName "abc" = String.mk "abc".toList.dropLast ∧
      ("abc" ≠ "" → stripName "abc" ≠ "abc")) ∧
    ("abc" : String) ≠ "" ∧ stripName "abc" = "ab" :=
  ⟨no_separator_drops_last "abc" (by decide), by decide, by decide⟩

end BuildPy
